import Mathlib

/-!
Verification of the usage-log aggregation engine of `quota-tracker.py`
(function `parse_session_usage`), by a shallow embedding in Lean 4.

A log directory is a list of files; each file is a list of lines; each line
either fails to parse as JSON (`none`) or yields a JSON-like value.
Python semantics that matter here and are modelled faithfully:

* `json.loads` produces dicts, lists, strings, numbers, booleans and null;
  we model numbers as rationals.
* `d.get(k, dflt)` returns the value of `k` or the default; `"k" in d`
  tests key membership.
* `x += v` raises `TypeError` when `v` is not a number (a `bool` counts as
  0 or 1); the per-line `except: continue` then abandons the rest of the
  line body, but assignments already made stick.  We model this with
  `Except`: `.error st` carries the partially updated state out of a line.
* The two usage locations (top-level `"usage"`, and `"message" -> "usage"`)
  are checked in sequence with no `else`: both can fire on one record,
  and the nested lookup defaults missing keys to `{}` — an empty dict —
  so the nested block runs (adding zeros and bumping the session counter)
  even for records carrying no usage at all.
* `round(x, 4)` rounds half to even at four decimal places.
-/

set_option maxRecDepth 8000

namespace QuotaTracker

/-- A JSON-like value as produced by decoding one log line. -/
inductive JsonValue where
  | null : JsonValue
  | bool : Bool → JsonValue
  | num : ℚ → JsonValue
  | str : String → JsonValue
  | arr : List JsonValue → JsonValue
  | obj : List (String × JsonValue) → JsonValue

/-- Python `d.get(key, dflt)` on a dict modelled as an association list. -/
def jsonGet (fields : List (String × JsonValue)) (key : String)
    (dflt : JsonValue) : JsonValue :=
  match fields.find? (fun p => p.1 == key) with
  | some p => p.2
  | none => dflt

/-- Python `key in d`. -/
def hasKey (fields : List (String × JsonValue)) (key : String) : Bool :=
  fields.any (fun p => p.1 == key)

/-- The numeric value a Python `+=` accepts: numbers, and booleans as 0/1.
Anything else raises `TypeError`. -/
def asNum : JsonValue → Option ℚ
  | .num q => some q
  | .bool b => some (if b then 1 else 0)
  | _ => none

/-- The five accumulators of `parse_session_usage`. -/
structure UsageTotals where
  total_cost : ℚ
  total_input : ℚ
  total_output : ℚ
  total_tokens : ℚ
  session_count : ℕ
  deriving DecidableEq, Repr

/-- The statement `cost = usage.get("cost", {}); if isinstance(cost, dict):
total_cost += cost.get("total", 0)`.  `.error` = `TypeError` raised. -/
def addCost (st : UsageTotals) (u : List (String × JsonValue)) :
    Except UsageTotals UsageTotals :=
  match jsonGet u "cost" (.obj []) with
  | .obj c =>
    match asNum (jsonGet c "total" (.num 0)) with
    | some q => .ok { st with total_cost := st.total_cost + q }
    | none => .error st
  | _ => .ok st

/-- The body run on a located usage dict `u`: add cost, input, output and
totalTokens (each defaulting to 0), then increment `session_count`.
`.error` carries the partial state out when a `+=` raises. -/
def usageBlock (st : UsageTotals) (u : List (String × JsonValue)) :
    Except UsageTotals UsageTotals :=
  match addCost st u with
  | .error s => .error s
  | .ok st1 =>
    match asNum (jsonGet u "input" (.num 0)) with
    | none => .error st1
    | some qi =>
      let st2 := { st1 with total_input := st1.total_input + qi }
      match asNum (jsonGet u "output" (.num 0)) with
      | none => .error st2
      | some qo =>
        let st3 := { st2 with total_output := st2.total_output + qo }
        match asNum (jsonGet u "totalTokens" (.num 0)) with
        | none => .error st3
        | some qt =>
          let st4 := { st3 with total_tokens := st3.total_tokens + qt }
          .ok { st4 with session_count := st4.session_count + 1 }

/-- Processing of one record that decoded to a dict `d`: the top-level
`"usage"` check, then (unless a `TypeError` ended the line) the nested
`"message"`/`"usage"` check.  Both checks can fire on the same record. -/
def processDict (st : UsageTotals) (d : List (String × JsonValue)) :
    UsageTotals :=
  let top : Except UsageTotals UsageTotals :=
    if hasKey d "usage" then
      match jsonGet d "usage" (.obj []) with
      | .obj u => usageBlock st u
      | _ => .ok st
    else .ok st
  match top with
  | .error s => s
  | .ok st1 =>
    match jsonGet d "message" (.obj []) with
    | .obj c =>
      match jsonGet c "usage" (.obj []) with
      | .obj u =>
        match usageBlock st1 u with
        | .ok s => s
        | .error s => s
      | _ => st1
    | _ => st1

/-- Processing of one line: `json.loads` failure (`none`) and non-dict
values are skipped by the guards; a dict is processed. -/
def processLine (st : UsageTotals) (line : Option JsonValue) : UsageTotals :=
  match line with
  | some (.obj d) => processDict st d
  | _ => st

/-- One session file: a sequence of lines, each possibly malformed. -/
abbrev LogFile := List (Option JsonValue)

/-- The session directory: a list of files, `none` meaning a file that
cannot be opened (skipped by the per-file `except`). -/
abbrev LogDir := List (Option LogFile)

/-- Fold of one file's lines. -/
def processFile (st : UsageTotals) (lines : LogFile) : UsageTotals :=
  lines.foldl processLine st

/-- Fold over the directory, skipping unreadable files. -/
def processFiles (st : UsageTotals) (files : LogDir) : UsageTotals :=
  files.foldl
    (fun s f =>
      match f with
      | some lines => processFile s lines
      | none => s) st

/-- All accumulators start at zero. -/
def initTotals : UsageTotals := ⟨0, 0, 0, 0, 0⟩

/-- Rounding half to even to the nearest integer, Python `round(x)`. -/
def roundHalfEven (q : ℚ) : ℤ :=
  if q - (⌊q⌋ : ℚ) < 1 / 2 then ⌊q⌋
  else if 1 / 2 < q - (⌊q⌋ : ℚ) then ⌊q⌋ + 1
  else if ⌊q⌋ % 2 = 0 then ⌊q⌋ else ⌊q⌋ + 1

/-- Python `round(x, 4)`. -/
def round4 (q : ℚ) : ℚ := (roundHalfEven (q * 10000) : ℚ) / 10000

/-- The dict returned by `parse_session_usage`. -/
structure SessionUsage where
  total_cost : ℚ
  total_input : ℚ
  total_output : ℚ
  total_tokens : ℚ
  sessions : ℕ
  deriving DecidableEq, Repr

/-- The whole of `parse_session_usage`, as a function of the directory
contents: fold all files' lines and round the accumulated cost. -/
def parse_session_usage (files : LogDir) : SessionUsage :=
  let st := processFiles initTotals files
  { total_cost := round4 st.total_cost
    total_input := st.total_input
    total_output := st.total_output
    total_tokens := st.total_tokens
    sessions := st.session_count }

/-! ### Derived views of the source code, used to state theorems -/

/-- The well-formed records of a directory in processing order: unreadable
files and undecodable lines dropped. -/
def goodRecords : LogDir → List JsonValue
  | [] => []
  | none :: files => goodRecords files
  | some lines :: files => lines.filterMap id ++ goodRecords files

/-- The result of a usage block whether or not a `TypeError` cut it short. -/
def blockOut (r : Except UsageTotals UsageTotals) : UsageTotals :=
  match r with
  | .ok s => s
  | .error s => s

/-- Whether the cost step of a usage block passes without a `TypeError`:
either `cost` is absent or not a dict (nothing is added), or its `total`
entry is numeric. -/
def costOk (u : List (String × JsonValue)) : Bool :=
  match jsonGet u "cost" (.obj []) with
  | .obj c => (asNum (jsonGet c "total" (.num 0))).isSome
  | _ => true

/-- The numeric value of the `input` entry of a usage dict, if numeric. -/
def inputVal (u : List (String × JsonValue)) : Option ℚ :=
  asNum (jsonGet u "input" (.num 0))

/-- The numeric value of the `output` entry of a usage dict, if numeric. -/
def outputVal (u : List (String × JsonValue)) : Option ℚ :=
  asNum (jsonGet u "output" (.num 0))

/-- The numeric value of the `totalTokens` entry, if numeric. -/
def tokensVal (u : List (String × JsonValue)) : Option ℚ :=
  asNum (jsonGet u "totalTokens" (.num 0))

/-- Whether a usage block runs to completion (no `TypeError`). -/
def blockOk (u : List (String × JsonValue)) : Bool :=
  costOk u && (inputVal u).isSome && (outputVal u).isSome &&
    (tokensVal u).isSome

/-- The amount a usage block adds to `total_cost`: the numeric
`cost.total`, or 0 when `cost` is absent or not a dict, or when the
`TypeError` strikes at the cost addition itself. -/
def blockCost (u : List (String × JsonValue)) : ℚ :=
  match jsonGet u "cost" (.obj []) with
  | .obj c => (asNum (jsonGet c "total" (.num 0))).getD 0
  | _ => 0

/-- The amount a usage block adds to `total_input`: 0 when the cost step
already raised, else the numeric `input` entry (0 when absent, and also 0
when non-numeric, for then the addition raises before changing it). -/
def blockInput (u : List (String × JsonValue)) : ℚ :=
  if costOk u then (inputVal u).getD 0 else 0

/-- The amount a usage block adds to `total_output`. -/
def blockOutput (u : List (String × JsonValue)) : ℚ :=
  if costOk u && (inputVal u).isSome then (outputVal u).getD 0 else 0

/-- The amount a usage block adds to `total_tokens`. -/
def blockTokens (u : List (String × JsonValue)) : ℚ :=
  if costOk u && (inputVal u).isSome && (outputVal u).isSome then
    (tokensVal u).getD 0
  else 0

/-- The usage dict reached by the top-level check of a record, when the
`"usage"` key is present with a dict value. -/
def topUsage (d : List (String × JsonValue)) :
    Option (List (String × JsonValue)) :=
  if hasKey d "usage" then
    match jsonGet d "usage" (.obj []) with
    | .obj u => some u
    | _ => none
  else none

/-- The usage dict reached by the nested check of a record.  The Python
defaults make this an empty dict — not `none` — whenever `"message"` is
absent, or is a dict whose `"usage"` entry is absent. -/
def nestedUsage (d : List (String × JsonValue)) :
    Option (List (String × JsonValue)) :=
  match jsonGet d "message" (.obj []) with
  | .obj c =>
    match jsonGet c "usage" (.obj []) with
    | .obj u => some u
    | _ => none
  | _ => none

/-- The cost contribution of the nested `message.usage` check of a record. -/
def nestedCost (d : List (String × JsonValue)) : ℚ :=
  match nestedUsage d with
  | some u => blockCost u
  | none => 0

/-- The total cost contribution of one dict record: the top-level check
first, then — unless that check raised — the nested check. -/
def dictCost (d : List (String × JsonValue)) : ℚ :=
  match topUsage d with
  | some u => if blockOk u then blockCost u + nestedCost d else blockCost u
  | none => nestedCost d

/-- The cost contribution of one line. -/
def lineCost : Option JsonValue → ℚ
  | some (.obj d) => dictCost d
  | _ => 0

/-- Recognizer for dict values. -/
def isObjB : JsonValue → Bool
  | .obj _ => true
  | _ => false

/-- Whether an `Except` result is `.ok`. -/
def okB : Except UsageTotals UsageTotals → Bool
  | .ok _ => true
  | .error _ => false

mutual

/-- Every number occurring anywhere in a JSON value is non-negative. -/
def allNumsNonneg : JsonValue → Bool
  | .num q => decide (0 ≤ q)
  | .arr xs => listNumsNonneg xs
  | .obj fs => fieldsNumsNonneg fs
  | _ => true

/-- `allNumsNonneg` over a list of values. -/
def listNumsNonneg : List JsonValue → Bool
  | [] => true
  | x :: xs => allNumsNonneg x && listNumsNonneg xs

/-- `allNumsNonneg` over the values of an association list. -/
def fieldsNumsNonneg : List (String × JsonValue) → Bool
  | [] => true
  | f :: fs => allNumsNonneg f.2 && fieldsNumsNonneg fs

end

/-- Every number in every decoded record of the directory is non-negative. -/
def dirNumsNonneg (files : LogDir) : Bool :=
  files.all fun f =>
    match f with
    | none => true
    | some lines =>
      lines.all fun l =>
        match l with
        | none => true
        | some v => allNumsNonneg v

/-- Pointwise order on the five accumulators. -/
def stLE (a b : UsageTotals) : Prop :=
  a.total_cost ≤ b.total_cost ∧ a.total_input ≤ b.total_input ∧
    a.total_output ≤ b.total_output ∧ a.total_tokens ≤ b.total_tokens ∧
    a.session_count ≤ b.session_count

/-! ### Definitions taken from the specification text, for comparison

The next definitions do not embed code of `quota-tracker.py`; they follow
the words of the specification so that the source behaviour can be
compared against them. -/

/-- Follows the words of the spec, section 3: `totalCost =
(totalInputTokens/1_000_000)*inputRate +
(totalOutputTokens/1_000_000)*outputRate`, rounded to 4 decimal places.
The source has no pricing table; this definition exists to be compared
with what the source computes. -/
def specTotalCost (totalInputTokens totalOutputTokens inputRate outputRate : ℚ) : ℚ :=
  round4 (totalInputTokens / 1000000 * inputRate +
    totalOutputTokens / 1000000 * outputRate)

/-- A calendar date. -/
structure CalDate where
  year : ℕ
  month : ℕ
  day : ℕ
  deriving DecidableEq, BEq

/-- An ISO-8601 timestamp already parsed into fields, read as UTC. -/
structure UtcInstant where
  year : ℕ
  month : ℕ
  day : ℕ
  hour : ℕ
  minute : ℕ
  second : ℕ
  deriving DecidableEq

/-- Gregorian leap year. -/
def isLeapYear (y : ℕ) : Bool :=
  y % 4 == 0 && (y % 100 != 0 || y % 400 == 0)

/-- Days in a month of the Gregorian calendar. -/
def daysInMonth (y m : ℕ) : ℕ :=
  if m == 2 then (if isLeapYear y then 29 else 28)
  else if m == 4 || m == 6 || m == 9 || m == 11 then 30
  else 31

/-- The calendar day after a date. -/
def nextDay (dt : CalDate) : CalDate :=
  if dt.day < daysInMonth dt.year dt.month then ⟨dt.year, dt.month, dt.day + 1⟩
  else if dt.month < 12 then ⟨dt.year, dt.month + 1, 1⟩
  else ⟨dt.year + 1, 1, 1⟩

/-- The UTC calendar date of an instant. -/
def utcDate (t : UtcInstant) : CalDate := ⟨t.year, t.month, t.day⟩

/-- The calendar date of an instant after shifting it forward 8 hours. -/
def shiftedDate (t : UtcInstant) : CalDate :=
  if t.hour + 8 < 24 then utcDate t else nextDay (utcDate t)

/-- Follows the words of the spec, section 4.2: with a target date given,
a record is included iff its timestamp parses and its UTC date, or its
date after the fixed 8-hour forward shift, equals the target; a missing
or unparseable timestamp (`none`) excludes the record.  The source has no
target-date input at all; this definition exists to be compared with what
the source does. -/
def specDateIncluded (ts : Option UtcInstant) (target : CalDate) : Bool :=
  match ts with
  | none => false
  | some t => utcDate t == target || shiftedDate t == target

/-! ### Helper lemmas -/

theorem jsonGet_not_found (fs : List (String × JsonValue)) (k : String)
    (d : JsonValue) (h : hasKey fs k = false) : jsonGet fs k d = d := by
  unfold jsonGet
  have hn : fs.find? (fun p => p.1 == k) = none := by
    rw [List.find?_eq_none]
    intro x hx
    unfold hasKey at h
    rw [List.any_eq_false] at h
    exact h x hx
  rw [hn]

theorem addCost_spec (st : UsageTotals) (u : List (String × JsonValue)) :
    (costOk u = true →
      addCost st u = .ok { st with total_cost := st.total_cost + blockCost u }) ∧
    (costOk u = false → addCost st u = .error st ∧ blockCost u = 0) := by
  rcases hc : jsonGet u "cost" (.obj []) with _ | _ | _ | _ | _ | c <;>
      simp [addCost, costOk, blockCost, hc]
  rcases ht : asNum (jsonGet c "total" (.num 0)) with _ | q <;> simp [ht]

theorem usageBlock_spec (st : UsageTotals) (u : List (String × JsonValue)) :
    blockOut (usageBlock st u) =
      { total_cost := st.total_cost + blockCost u
        total_input := st.total_input + blockInput u
        total_output := st.total_output + blockOutput u
        total_tokens := st.total_tokens + blockTokens u
        session_count := st.session_count + (if blockOk u then 1 else 0) } ∧
    okB (usageBlock st u) = blockOk u := by
  rcases hco : costOk u with _ | _
  · obtain ⟨h1, h2⟩ := (addCost_spec st u).2 hco
    simp [usageBlock, h1, blockOut, okB, blockOk, h2, blockInput,
      blockOutput, blockTokens, hco]
  · have h1 := (addCost_spec st u).1 hco
    rcases hi : inputVal u with _ | qi <;>
    rcases ho : outputVal u with _ | qo <;>
    rcases ht : tokensVal u with _ | qt <;>
      simp [usageBlock, h1, inputVal, outputVal, tokensVal] at hi ho ht ⊢ <;>
      simp [hi, ho, ht, blockOut, okB, blockOk, blockInput, blockOutput,
        blockTokens, hco, inputVal, outputVal, tokensVal]

theorem usageBlock_okB (st : UsageTotals) (u : List (String × JsonValue)) :
    okB (usageBlock st u) = blockOk u :=
  (usageBlock_spec st u).2

theorem blockOut_ok (s : UsageTotals) : blockOut (.ok s) = s := rfl

theorem blockOut_error (s : UsageTotals) : blockOut (.error s) = s := rfl

theorem processDict_eq (st : UsageTotals) (d : List (String × JsonValue)) :
    processDict st d =
      match topUsage d with
      | some u =>
        if blockOk u then
          match nestedUsage d with
          | some u2 => blockOut (usageBlock (blockOut (usageBlock st u)) u2)
          | none => blockOut (usageBlock st u)
        else blockOut (usageBlock st u)
      | none =>
        match nestedUsage d with
        | some u2 => blockOut (usageBlock st u2)
        | none => st := by
  have nested : ∀ st1 : UsageTotals,
      (match jsonGet d "message" (.obj []) with
        | .obj c =>
          match jsonGet c "usage" (.obj []) with
          | .obj u =>
            match usageBlock st1 u with
            | .ok s => s
            | .error s => s
          | _ => st1
        | _ => st1) =
      (match nestedUsage d with
        | some u2 => blockOut (usageBlock st1 u2)
        | none => st1) := by
    intro st1
    unfold nestedUsage
    rcases hm : jsonGet d "message" (.obj []) with _ | _ | _ | _ | _ | c <;>
      simp [hm]
    rcases hcu : jsonGet c "usage" (.obj []) with _ | _ | _ | _ | _ | u <;>
      simp [hcu]
    rcases hb : usageBlock st1 u with s1 | s1 <;> simp [blockOut]
  unfold processDict topUsage
  rcases hk : hasKey d "usage" with _ | _ <;> simp [hk]
  · exact nested st
  · rcases hu : jsonGet d "usage" (.obj []) with _ | _ | _ | _ | _ | u <;>
      simp [hu]
    case obj =>
      have hok := usageBlock_okB st u
      rcases hb : usageBlock st u with s1 | s1 <;> rw [hb] at hok
      · have hf : blockOk u = false := hok.symm
        simp [hf, hb, blockOut_error]
      · have htr : blockOk u = true := hok.symm
        simp [htr, hb, blockOut_ok]
        exact nested s1
    all_goals exact nested st

theorem blockOut_cost (st : UsageTotals) (u : List (String × JsonValue)) :
    (blockOut (usageBlock st u)).total_cost = st.total_cost + blockCost u := by
  rw [(usageBlock_spec st u).1]

theorem blockOut_count (st : UsageTotals) (u : List (String × JsonValue)) :
    (blockOut (usageBlock st u)).session_count =
      st.session_count + (if blockOk u then 1 else 0) := by
  rw [(usageBlock_spec st u).1]

theorem processDict_cost (st : UsageTotals) (d : List (String × JsonValue)) :
    (processDict st d).total_cost = st.total_cost + dictCost d := by
  rw [processDict_eq]
  unfold dictCost nestedCost
  rcases topUsage d with _ | u
  · rcases nestedUsage d with _ | u2 <;> simp [blockOut_cost]
  · rcases hok : blockOk u with _ | _ <;> simp [hok, blockOut_cost]
    rcases nestedUsage d with _ | u2 <;> simp [blockOut_cost]
    ring

theorem processDict_count_le (st : UsageTotals) (d : List (String × JsonValue)) :
    (processDict st d).session_count ≤ st.session_count + 2 := by
  rw [processDict_eq]
  rcases topUsage d with _ | u <;> rcases nestedUsage d with _ | u2 <;>
    simp [blockOut_count] <;> split_ifs <;> simp [blockOut_count] <;>
    split_ifs <;> omega

theorem processLine_cost (st : UsageTotals) (l : Option JsonValue) :
    (processLine st l).total_cost = st.total_cost + lineCost l := by
  rcases l with _ | v
  · simp [processLine, lineCost]
  · cases v <;> simp [processLine, lineCost, processDict_cost]

theorem processFile_eq (st : UsageTotals) (lines : LogFile) :
    processFile st lines =
      (lines.filterMap id).foldl (fun s v => processLine s (some v)) st := by
  induction lines generalizing st with
  | nil => rfl
  | cons l ls ih =>
    cases l with
    | none => exact ih st
    | some v => exact ih (processLine st (some v))

theorem processFiles_eq (st : UsageTotals) (files : LogDir) :
    processFiles st files =
      (goodRecords files).foldl (fun s v => processLine s (some v)) st := by
  induction files generalizing st with
  | nil => rfl
  | cons f fs ih =>
    cases f with
    | none => exact ih st
    | some lines =>
      show processFiles (processFile st lines) fs = _
      rw [ih, processFile_eq]
      simp [goodRecords, List.foldl_append]

theorem foldl_cost (g : List JsonValue) (st : UsageTotals) :
    (g.foldl (fun s v => processLine s (some v)) st).total_cost =
      st.total_cost + (g.map (fun v => lineCost (some v))).sum := by
  induction g generalizing st with
  | nil => simp
  | cons v vs ih =>
    simp only [List.foldl_cons, List.map_cons, List.sum_cons]
    rw [ih, processLine_cost]
    ring

theorem fieldsNumsNonneg_mem {fs : List (String × JsonValue)}
    {p : String × JsonValue} (h : fieldsNumsNonneg fs = true) (hp : p ∈ fs) :
    allNumsNonneg p.2 = true := by
  induction fs with
  | nil => cases hp
  | cons f fs ih =>
    rw [fieldsNumsNonneg, Bool.and_eq_true] at h
    rcases List.mem_cons.mp hp with h1 | h1
    · rw [h1]; exact h.1
    · exact ih h.2 h1

theorem jsonGet_nonneg {fs : List (String × JsonValue)} {dv : JsonValue}
    (k : String) (h : fieldsNumsNonneg fs = true)
    (hd : allNumsNonneg dv = true) :
    allNumsNonneg (jsonGet fs k dv) = true := by
  unfold jsonGet
  rcases hf : fs.find? (fun p => p.1 == k) with _ | p <;> rw [hf]
  · exact hd
  · exact fieldsNumsNonneg_mem h (List.mem_of_find?_eq_some hf)

theorem asNum_nonneg {v : JsonValue} {q : ℚ} (h : allNumsNonneg v = true)
    (ha : asNum v = some q) : 0 ≤ q := by
  cases v <;> simp [asNum] at ha
  case bool b =>
    rw [← ha]
    split <;> norm_num
  case num q0 =>
    rw [allNumsNonneg, decide_eq_true_eq] at h
    rw [← ha]
    exact h

theorem getD_nonneg {o : Option ℚ}
    (h : ∀ q, o = some q → 0 ≤ q) : 0 ≤ o.getD 0 := by
  rcases ho : o with _ | q
  · simp
  · simpa using h q ho

theorem blockCost_nonneg {u : List (String × JsonValue)}
    (h : fieldsNumsNonneg u = true) : 0 ≤ blockCost u := by
  unfold blockCost
  rcases hc : jsonGet u "cost" (.obj []) with _ | _ | _ | _ | _ | c <;>
    norm_num
  have hcn := @jsonGet_nonneg u (.obj []) "cost" h rfl
  rw [hc, allNumsNonneg] at hcn
  exact getD_nonneg fun q hq =>
    asNum_nonneg (jsonGet_nonneg "total" hcn (by simp [allNumsNonneg])) hq

theorem inputVal_nonneg {u : List (String × JsonValue)}
    (h : fieldsNumsNonneg u = true) : ∀ q, inputVal u = some q → 0 ≤ q :=
  fun _ hq =>
    asNum_nonneg (jsonGet_nonneg "input" h (by simp [allNumsNonneg])) hq

theorem outputVal_nonneg {u : List (String × JsonValue)}
    (h : fieldsNumsNonneg u = true) : ∀ q, outputVal u = some q → 0 ≤ q :=
  fun _ hq =>
    asNum_nonneg (jsonGet_nonneg "output" h (by simp [allNumsNonneg])) hq

theorem tokensVal_nonneg {u : List (String × JsonValue)}
    (h : fieldsNumsNonneg u = true) : ∀ q, tokensVal u = some q → 0 ≤ q :=
  fun _ hq =>
    asNum_nonneg (jsonGet_nonneg "totalTokens" h (by simp [allNumsNonneg])) hq

theorem blockInput_nonneg {u : List (String × JsonValue)}
    (h : fieldsNumsNonneg u = true) : 0 ≤ blockInput u := by
  unfold blockInput
  split
  · exact getD_nonneg (inputVal_nonneg h)
  · norm_num

theorem blockOutput_nonneg {u : List (String × JsonValue)}
    (h : fieldsNumsNonneg u = true) : 0 ≤ blockOutput u := by
  unfold blockOutput
  split
  · exact getD_nonneg (outputVal_nonneg h)
  · norm_num

theorem blockTokens_nonneg {u : List (String × JsonValue)}
    (h : fieldsNumsNonneg u = true) : 0 ≤ blockTokens u := by
  unfold blockTokens
  split
  · exact getD_nonneg (tokensVal_nonneg h)
  · norm_num

theorem stLE_refl (a : UsageTotals) : stLE a a :=
  ⟨le_refl _, le_refl _, le_refl _, le_refl _, le_refl _⟩

theorem stLE_trans {a b c : UsageTotals} (h1 : stLE a b) (h2 : stLE b c) :
    stLE a c :=
  ⟨le_trans h1.1 h2.1, le_trans h1.2.1 h2.2.1, le_trans h1.2.2.1 h2.2.2.1,
    le_trans h1.2.2.2.1 h2.2.2.2.1, le_trans h1.2.2.2.2 h2.2.2.2.2⟩

theorem blockOut_stLE {st : UsageTotals} {u : List (String × JsonValue)}
    (h : fieldsNumsNonneg u = true) : stLE st (blockOut (usageBlock st u)) := by
  rw [(usageBlock_spec st u).1]
  refine ⟨?_, ?_, ?_, ?_, ?_⟩
  · exact le_add_of_nonneg_right (blockCost_nonneg h)
  · exact le_add_of_nonneg_right (blockInput_nonneg h)
  · exact le_add_of_nonneg_right (blockOutput_nonneg h)
  · exact le_add_of_nonneg_right (blockTokens_nonneg h)
  · exact Nat.le_add_right _ _

theorem topUsage_nonneg {d u : List (String × JsonValue)}
    (hd : fieldsNumsNonneg d = true) (h : topUsage d = some u) :
    fieldsNumsNonneg u = true := by
  unfold topUsage at h
  rcases hk : hasKey d "usage" with _ | _ <;> rw [hk] at h <;> simp at h
  rcases hj : jsonGet d "usage" (.obj []) with _ | _ | _ | _ | _ | w <;>
    rw [hj] at h <;> simp at h
  subst h
  have hn := @jsonGet_nonneg d (.obj []) "usage" hd rfl
  rw [hj, allNumsNonneg] at hn
  exact hn

theorem nestedUsage_nonneg {d u : List (String × JsonValue)}
    (hd : fieldsNumsNonneg d = true) (h : nestedUsage d = some u) :
    fieldsNumsNonneg u = true := by
  unfold nestedUsage at h
  rcases hm : jsonGet d "message" (.obj []) with _ | _ | _ | _ | _ | c <;>
    rw [hm] at h <;> simp at h
  have hcn := @jsonGet_nonneg d (.obj []) "message" hd rfl
  rw [hm, allNumsNonneg] at hcn
  rcases hj : jsonGet c "usage" (.obj []) with _ | _ | _ | _ | _ | w <;>
    rw [hj] at h <;> simp at h
  subst h
  have hn := @jsonGet_nonneg c (.obj []) "usage" hcn rfl
  rw [hj, allNumsNonneg] at hn
  exact hn

theorem processDict_stLE {st : UsageTotals} {d : List (String × JsonValue)}
    (hd : fieldsNumsNonneg d = true) : stLE st (processDict st d) := by
  rcases ht : topUsage d with _ | u <;>
    rcases hn : nestedUsage d with _ | u2 <;>
      rw [processDict_eq] <;> simp only [ht, hn, ite_self]
  · exact stLE_refl st
  · exact blockOut_stLE (nestedUsage_nonneg hd hn)
  · exact blockOut_stLE (topUsage_nonneg hd ht)
  · have hu := topUsage_nonneg hd ht
    split_ifs
    · exact stLE_trans (blockOut_stLE hu)
        (blockOut_stLE (nestedUsage_nonneg hd hn))
    · exact blockOut_stLE hu

theorem processLine_stLE {st : UsageTotals} {l : Option JsonValue}
    (hl : ∀ v, l = some v → allNumsNonneg v = true) :
    stLE st (processLine st l) := by
  rcases l with _ | v
  · exact stLE_refl st
  · cases v
    case obj d =>
      have hv := hl _ rfl
      rw [allNumsNonneg] at hv
      exact processDict_stLE hv
    all_goals exact stLE_refl st

theorem goodRecords_nonneg {files : LogDir} (h : dirNumsNonneg files = true) :
    ∀ v ∈ goodRecords files, allNumsNonneg v = true := by
  induction files with
  | nil => intro v hv; cases hv
  | cons f fs ih =>
    rw [dirNumsNonneg, List.all_cons, Bool.and_eq_true] at h
    cases f with
    | none => intro v hv; exact ih h.2 v hv
    | some lines =>
      intro v hv
      rcases List.mem_append.mp hv with h1 | h1
      · obtain ⟨a, ha, hav⟩ := List.mem_filterMap.mp h1
        rw [show id a = a from rfl] at hav
        subst hav
        have hl := List.all_eq_true.mp h.1 _ ha
        simpa using hl
      · exact ih h.2 v h1

theorem foldl_stLE {g : List JsonValue}
    (hg : ∀ v ∈ g, allNumsNonneg v = true) (st : UsageTotals) :
    stLE st (g.foldl (fun s v => processLine s (some v)) st) := by
  induction g generalizing st with
  | nil => exact stLE_refl st
  | cons v vs ih =>
    refine stLE_trans ?_ (ih (fun w hw => hg w (List.mem_cons_of_mem _ hw)) _)
    refine processLine_stLE fun w hw => ?_
    cases hw
    exact hg v (List.mem_cons_self v vs)

theorem roundHalfEven_nonneg {q : ℚ} (h : 0 ≤ q) : 0 ≤ roundHalfEven q := by
  unfold roundHalfEven
  have h2 : (0 : ℤ) ≤ ⌊q⌋ := Int.floor_nonneg.mpr h
  split_ifs <;> omega

theorem round4_nonneg {q : ℚ} (h : 0 ≤ q) : 0 ≤ round4 q := by
  unfold round4
  have h1 : (0 : ℤ) ≤ roundHalfEven (q * 10000) :=
    roundHalfEven_nonneg (by positivity)
  have h2 : (0 : ℚ) ≤ (roundHalfEven (q * 10000) : ℚ) := by exact_mod_cast h1
  exact div_nonneg h2 (by norm_num)

theorem processDict_nested_default (st : UsageTotals)
    (d : List (String × JsonValue)) (ht : topUsage d = none)
    (hn : nestedUsage d = some []) :
    processDict st d = { st with session_count := st.session_count + 1 } := by
  rw [processDict_eq]
  simp only [ht, hn]
  rw [(usageBlock_spec st []).1]
  have e1 : blockCost [] = 0 := rfl
  have e2 : blockInput [] = 0 := rfl
  have e3 : blockOutput [] = 0 := rfl
  have e4 : blockTokens [] = 0 := rfl
  have e5 : blockOk [] = true := rfl
  rw [e1, e2, e3, e4, e5]
  simp

theorem processDict_inert (st : UsageTotals)
    (d : List (String × JsonValue)) (ht : topUsage d = none)
    (hn : nestedUsage d = none) : processDict st d = st := by
  rw [processDict_eq]
  simp only [ht, hn]

theorem processDict_no_keys (st : UsageTotals) (d : List (String × JsonValue))
    (h1 : hasKey d "usage" = false) (h2 : hasKey d "message" = false) :
    processDict st d = { st with session_count := st.session_count + 1 } := by
  refine processDict_nested_default st d ?_ ?_
  · unfold topUsage
    rw [h1]
    rfl
  · unfold nestedUsage
    rw [jsonGet_not_found _ _ _ h2]
    rfl

theorem processLine_count_le (st : UsageTotals) (l : Option JsonValue) :
    (processLine st l).session_count ≤ st.session_count + 2 := by
  rcases l with _ | v
  · exact Nat.le_add_right _ _
  · cases v
    case obj d => exact processDict_count_le st d
    all_goals exact Nat.le_add_right _ _

/-! ### The claims -/

/-- C1 is false on the code: a record carrying usage in both locations
contributes the sum of both (input 1 at top level plus input 2 nested
gives 3), not the contribution of the same record with only the
top-level usage present (which gives 1). -/
theorem c1_counterexample :
    (parse_session_usage [some [some (.obj
        [("usage", .obj [("input", .num 1)]),
          ("message", .obj [("usage", .obj [("input", .num 2)])])])]]).total_input
      = 3 ∧
    (parse_session_usage [some [some (.obj
        [("usage", .obj [("input", .num 1)]),
          ("message", .obj [])])]]).total_input = 1 :=
  ⟨by with_unfolding_all rfl, by with_unfolding_all rfl⟩

/-- C1 (amended): a record with usage dicts in both locations contributes
the sum of the two locations' values to every token total, and 2 to the
session count — both checks run, top-level does not win. -/
theorem c1_amended_both_locations_add (st : UsageTotals)
    (a1 b1 t1 a2 b2 t2 : ℚ) :
    processDict st
        [("usage", .obj [("input", .num a1), ("output", .num b1),
            ("totalTokens", .num t1)]),
          ("message", .obj [("usage", .obj [("input", .num a2),
            ("output", .num b2), ("totalTokens", .num t2)])])] =
      { st with
          total_input := st.total_input + a1 + a2
          total_output := st.total_output + b1 + b2
          total_tokens := st.total_tokens + t1 + t2
          session_count := st.session_count + 2 } := by
  have h : processDict st
        [("usage", .obj [("input", .num a1), ("output", .num b1),
            ("totalTokens", .num t1)]),
          ("message", .obj [("usage", .obj [("input", .num a2),
            ("output", .num b2), ("totalTokens", .num t2)])])] =
      { st with
          total_cost := st.total_cost + 0 + 0
          total_input := st.total_input + a1 + a2
          total_output := st.total_output + b1 + b2
          total_tokens := st.total_tokens + t1 + t2
          session_count := st.session_count + 2 } := by
    with_unfolding_all rfl
  rw [h]
  simp

/-- C2 is false on the code: the spec's date filter (modelled here as
`specDateIncluded`) excludes, for target date 2024-01-02, a record whose
timestamp is 2024-01-01T10:00:00Z (and includes one at 23:30Z), but
`parse_session_usage` takes no target date and counts the 10:00Z record
unconditionally: its usage is added to the totals. -/
theorem c2_counterexample :
    specDateIncluded (some ⟨2024, 1, 1, 10, 0, 0⟩) ⟨2024, 1, 2⟩ = false ∧
    specDateIncluded (some ⟨2024, 1, 1, 23, 30, 0⟩) ⟨2024, 1, 2⟩ = true ∧
    (parse_session_usage [some [some (.obj
        [("timestamp", .str "2024-01-01T10:00:00Z"),
          ("usage", .obj [("input", .num 5)])])]]).total_input = 5 :=
  ⟨by decide, by decide, by with_unfolding_all rfl⟩

/-- C2 (amended): the aggregation has no target-date input and performs
no date filtering at all — processing a record is unchanged by any
timestamp field, so every record is included regardless of timestamp
(present, absent, or unparseable). -/
theorem c2_amended_no_date_filter (st : UsageTotals) (ts : JsonValue)
    (d : List (String × JsonValue)) :
    processDict st (("timestamp", ts) :: d) = processDict st d := by
  have ha : hasKey (("timestamp", ts) :: d) "usage" = hasKey d "usage" := by
    simp [hasKey]
  have hj : jsonGet (("timestamp", ts) :: d) "usage" (.obj []) =
      jsonGet d "usage" (.obj []) := by
    simp [jsonGet, List.find?]
  have hm : jsonGet (("timestamp", ts) :: d) "message" (.obj []) =
      jsonGet d "message" (.obj []) := by
    simp [jsonGet, List.find?]
  have h1 : topUsage (("timestamp", ts) :: d) = topUsage d := by
    unfold topUsage
    simp only [ha, hj]
  have h2 : nestedUsage (("timestamp", ts) :: d) = nestedUsage d := by
    unfold nestedUsage
    simp only [hm]
  rw [processDict_eq, processDict_eq, h1, h2]

/-- C3 is false on the code: for the claim's own example — two million
input tokens and half a million output tokens — the spec formula with
rates 15 and 60 per million demands a total cost of 60, but the code
never consults a pricing table: the run returns exactly those token
totals with a total cost of 0. -/
theorem c3_counterexample :
    specTotalCost 2000000 500000 15 60 = 60 ∧
    parse_session_usage [some [some (.obj [("usage", .obj
        [("input", .num 2000000), ("output", .num 500000)])])]] =
      ⟨0, 2000000, 500000, 0, 2⟩ :=
  ⟨by with_unfolding_all rfl, by with_unfolding_all rfl⟩

/-- C3 (amended): the total cost comes from the logs themselves — it is
the rounded sum of `cost.total` values found next to the usage fields —
so the claim's example yields cost 60 only when the log record itself
carries `cost.total = 60`, and yields 0 when no cost field is present. -/
theorem c3_amended_cost_from_logs :
    (parse_session_usage [some [some (.obj [("usage", .obj
        [("input", .num 2000000), ("output", .num 500000),
          ("cost", .obj [("total", .num 60)])])])]]).total_cost = 60 ∧
    (parse_session_usage [some [some (.obj [("usage", .obj
        [("input", .num 2000000), ("output", .num 500000)])])]]).total_cost
      = 0 :=
  ⟨by with_unfolding_all rfl, by with_unfolding_all rfl⟩

/-- C4 is false on the code: a record with no usage in either location —
here the empty dict — still increments the session count (to 1, via the
defaulted empty nested lookup), and a single record with one top-level
usage dict increments it twice (to 2). -/
theorem c4_counterexample :
    (parse_session_usage [some [some (.obj [])]]).sessions = 1 ∧
    (parse_session_usage [some [some (.obj [("usage",
        .obj [("input", .num 1)])])]]).sessions = 2 :=
  ⟨by with_unfolding_all rfl, by with_unfolding_all rfl⟩

/-- C4 (amended): the session count counts completed usage blocks, up to
two per record: a dict record with neither a `usage` nor a `message` key
still increments it by exactly 1, and no line increments it by more
than 2. -/
theorem c4_amended_session_count :
    (∀ (st : UsageTotals) (d : List (String × JsonValue)),
        hasKey d "usage" = false → hasKey d "message" = false →
        processDict st d =
          { st with session_count := st.session_count + 1 }) ∧
    (∀ (st : UsageTotals) (l : Option JsonValue),
        (processLine st l).session_count ≤ st.session_count + 2) :=
  ⟨processDict_no_keys, processLine_count_le⟩

/-- Witness for the amended C4 at concrete inputs. -/
theorem c4_witness :
    processDict initTotals [("foo", .num 3)] =
      { initTotals with session_count := initTotals.session_count + 1 } ∧
    (processLine initTotals (some (.obj []))).session_count ≤
      initTotals.session_count + 2 :=
  ⟨c4_amended_session_count.1 initTotals _ rfl rfl,
    c4_amended_session_count.2 initTotals _⟩

/-- C5 is false on the code: nothing clamps negative log values, so a
single record with `usage.input = -5` drives `total_input` to -5 < 0. -/
theorem c5_counterexample :
    (parse_session_usage [some [some (.obj [("usage",
        .obj [("input", .num (-5))])])]]).total_input = -5 ∧
    ¬ (0 : ℚ) ≤ (-5 : ℚ) :=
  ⟨by with_unfolding_all rfl, by norm_num⟩

/-- C5 (amended): when every number in the decoded records is
non-negative, all five result fields are non-negative (the session count
unconditionally so). -/
theorem c5_amended_nonneg (files : LogDir)
    (h : dirNumsNonneg files = true) :
    0 ≤ (parse_session_usage files).total_cost ∧
    0 ≤ (parse_session_usage files).total_input ∧
    0 ≤ (parse_session_usage files).total_output ∧
    0 ≤ (parse_session_usage files).total_tokens ∧
    0 ≤ (parse_session_usage files).sessions := by
  have hst : stLE initTotals (processFiles initTotals files) := by
    rw [processFiles_eq]
    exact foldl_stLE (goodRecords_nonneg h) initTotals
  obtain ⟨h1, h2, h3, h4, h5⟩ := hst
  exact ⟨round4_nonneg h1, h2, h3, h4, Nat.zero_le _⟩

/-- Witness for the amended C5 at a concrete directory. -/
theorem c5_witness :
    dirNumsNonneg [some [some (.obj [("usage",
        .obj [("input", .num 3)])]), none], none] = true ∧
    0 ≤ (parse_session_usage [some [some (.obj [("usage",
        .obj [("input", .num 3)])]), none], none]).total_input := by
  have h : dirNumsNonneg [some [some (.obj [("usage",
      .obj [("input", .num 3)])]), none], none] = true := by
    with_unfolding_all rfl
  exact ⟨h, (c5_amended_nonneg _ h).2.1⟩

/-- C6: undecodable lines and unreadable files are skipped without
aborting anything — the aggregate over any directory equals the
aggregate over just its well-formed records. -/
theorem c6_malformed_skipped (files : LogDir) :
    parse_session_usage files =
      parse_session_usage [some ((goodRecords files).map some)] := by
  unfold parse_session_usage
  rw [processFiles_eq, processFiles_eq]
  have hg : goodRecords [some ((goodRecords files).map some)] =
      goodRecords files := by
    simp [goodRecords]
  rw [hg]

/-- C7: an empty (or missing, hence empty-globbed) directory yields the
all-zero result; the embedding is a total function, so every input
yields a result. -/
theorem c7_empty_all_zero : parse_session_usage [] = ⟨0, 0, 0, 0, 0⟩ := by
  with_unfolding_all rfl

/-- C8: a record whose located usage dict carries only `input` adds that
value to `total_input` and adds 0 to `total_output` and `total_tokens`,
in both the top-level and the nested location. -/
theorem c8_only_input (st : UsageTotals) (n : ℚ) :
    (processDict st [("usage", .obj [("input", .num n)])] =
      { st with
          total_input := st.total_input + n
          session_count := st.session_count + 2 }) ∧
    (processDict st [("message", .obj [("usage",
        .obj [("input", .num n)])])] =
      { st with
          total_input := st.total_input + n
          session_count := st.session_count + 1 }) := by
  constructor
  · have h : processDict st [("usage", .obj [("input", .num n)])] =
        { st with
            total_cost := st.total_cost + 0 + 0
            total_input := st.total_input + n + 0
            total_output := st.total_output + 0 + 0
            total_tokens := st.total_tokens + 0 + 0
            session_count := st.session_count + 2 } := by
      with_unfolding_all rfl
    rw [h]
    simp
  · have h : processDict st [("message", .obj [("usage",
        .obj [("input", .num n)])])] =
        { st with
            total_cost := st.total_cost + 0
            total_input := st.total_input + n
            total_output := st.total_output + 0
            total_tokens := st.total_tokens + 0
            session_count := st.session_count + 1 } := by
      with_unfolding_all rfl
    rw [h]
    simp

/-- C9 is false as stated: a usage dict whose `cost.total` is numeric but
whose `input` is a string adds its cost before the `TypeError` aborts the
line, so the run counts zero usage locations yet reports total cost 5 —
not the rounded sum (0) over counted locations. -/
theorem c9_counterexample :
    (parse_session_usage [some [some (.obj [("usage", .obj
        [("cost", .obj [("total", .num 5)]),
          ("input", .str "x")])])]]).sessions = 0 ∧
    (parse_session_usage [some [some (.obj [("usage", .obj
        [("cost", .obj [("total", .num 5)]),
          ("input", .str "x")])])]]).total_cost = 5 :=
  ⟨by with_unfolding_all rfl, by with_unfolding_all rfl⟩

/-- C9 (amended): the total cost is the 4-decimal rounded sum, over the
well-formed records, of each record's cost contribution (`lineCost`):
every usage location whose cost step runs contributes its numeric
`cost.total` (0 when `cost` is absent or not a dict) even when a later
field aborts the line before the location is counted. -/
theorem c9_amended_cost_sum (files : LogDir) :
    (parse_session_usage files).total_cost =
      round4 (((goodRecords files).map (fun v => lineCost (some v))).sum) := by
  have hp : (parse_session_usage files).total_cost =
      round4 ((processFiles initTotals files).total_cost) := rfl
  rw [hp, processFiles_eq, foldl_cost]
  norm_num [initTotals]

/-- C10 is false on the "does not increment" part: a record whose
`usage` value is the non-dict 5 still bumps the session count to 1,
through the defaulted empty nested lookup. -/
theorem c10_counterexample :
    (parse_session_usage [some [some (.obj
        [("usage", .num 5)])]]).sessions = 1 := by
  with_unfolding_all rfl

/-- C10 (amended): a decoded line that is not a dict contributes nothing
at all; a record whose `usage` value is present but not a dict adds
nothing to the totals yet still increments the session count by 1 (via
the defaulted nested lookup), and a record whose `message` value is
present but not a dict contributes nothing and leaves the count alone. -/
theorem c10_amended_non_mapping :
    (∀ (st : UsageTotals) (v : JsonValue), isObjB v = false →
        processLine st (some v) = st) ∧
    (∀ (st : UsageTotals) (v : JsonValue), isObjB v = false →
        processDict st [("usage", v)] =
          { st with session_count := st.session_count + 1 }) ∧
    (∀ (st : UsageTotals) (v : JsonValue), isObjB v = false →
        processDict st [("message", v)] = st) := by
  refine ⟨fun st v h => ?_, fun st v h => ?_, fun st v h => ?_⟩
  · cases v
    case obj l => simp [isObjB] at h
    all_goals rfl
  · cases v
    case obj l => simp [isObjB] at h
    all_goals exact processDict_nested_default st _ rfl rfl
  · cases v
    case obj l => simp [isObjB] at h
    all_goals exact processDict_inert st _ rfl rfl

/-- Witness for the amended C10 at a concrete non-dict value. -/
theorem c10_witness :
    processLine initTotals (some (.num 3)) = initTotals ∧
    processDict initTotals [("usage", .num 3)] =
      { initTotals with session_count := initTotals.session_count + 1 } ∧
    processDict initTotals [("message", .num 3)] = initTotals :=
  ⟨c10_amended_non_mapping.1 initTotals _ rfl,
    c10_amended_non_mapping.2.1 initTotals _ rfl,
    c10_amended_non_mapping.2.2 initTotals _ rfl⟩

end QuotaTracker
